import Mathlib

set_option maxRecDepth 16000

/-!
Verification of the pysimplefoc packet framing and value-marshaling engine
(`src/simplefoc/packets.py`, `src/simplefoc/registers.py`).
-/

/-- Wire type tags of a register's signature: `b` unsigned byte, `i` unsigned
32-bit little-endian integer, `f` 32-bit little-endian IEEE-754 float, and
`bstar` the variable-byte-list tag `b*` used by the telemetry-selection
register. -/
inductive Tag where
  | b | i | f | bstar
deriving DecidableEq, Repr

/-- Python exception kinds raised by the translated code paths. `unmodeled`
marks the model's boundary (non-finite float bit patterns and float repr),
which no theorem below touches. -/
inductive PyErr where
  | valueError | typeError | attributeError | indexError
  | overflowError | unicodeError | exception | unmodeled
deriving DecidableEq, Repr

/-- A Python runtime value as it flows through the codec: an int, a float
(represented by its exact rational value), a bool, `None`, or a list. -/
inductive PyVal where
  | vint : Int → PyVal
  | vfloat : ℚ → PyVal
  | vbool : Bool → PyVal
  | vnone : PyVal
  | vlist : List PyVal → PyVal

/-- Decode an IEEE-754 single-precision bit pattern to its exact rational
value (what `struct.unpack` of the 4 little-endian bytes yields); `none` for
the non-finite patterns (exponent field 255), which the model does not
cover. -/
def decodeFloat32 (bits : Nat) : Option ℚ :=
  let s : Nat := bits / 2 ^ 31 % 2
  let e : Nat := bits / 2 ^ 23 % 256
  let m : Nat := bits % 2 ^ 23
  if e = 255 then none
  else
    let mag : ℚ := if e = 0 then mkRat (Int.ofNat m) (2 ^ 149)
                   else mkRat (Int.ofNat ((2 ^ 23 + m) * 2 ^ e)) (2 ^ 150)
    some (if s = 1 then -mag else mag)

/-- Candidate bit patterns for encoding `q`: one per exponent field value
0..254, with `q`'s sign. -/
def float32Candidates (q : ℚ) : List Nat :=
  let s : Nat := if q.num < 0 then 2 ^ 31 else 0
  let an : Int := |q.num|
  (List.range 255).filterMap (fun e =>
    if e = 0 then
      let mq := mkRat (an * Int.ofNat (2 ^ 149)) q.den
      if mq.den = 1 ∧ mq.num < 2 ^ 23 then some (s + mq.num.toNat) else none
    else
      let mq := mkRat (an * Int.ofNat (2 ^ 150)) (q.den * 2 ^ e)
      if mq.den = 1 ∧ 2 ^ 23 ≤ mq.num ∧ mq.num < 2 ^ 24 then
        some (s + e * 2 ^ 23 + (mq.num.toNat - 2 ^ 23))
      else none)

/-- The IEEE-754 single-precision bit pattern of `q`, when `q` is exactly
representable; `none` otherwise. `struct.pack('<f', q)` of a representable
value writes exactly these bits (its rounding of unrepresentable values is
outside the model). -/
def float32Bits (q : ℚ) : Option Nat :=
  if q.num = 0 then some 0
  else (float32Candidates q).find? (fun b => decide (b < 2 ^ 32 ∧ decodeFloat32 b = some q))


/-! ## Register catalog (`src/simplefoc/registers.py`) -/

/-- A register descriptor: name, one-byte id, and ordered read/write type
signatures (`Register.__init__`). The name is kept as a character list so
that the name-lookup logic of `parse_register` is stated over plain lists. -/
structure Register where
  name : List Char
  id : Nat
  read_types : List Tag
  write_types : List Tag
deriving DecidableEq, Repr

def REG_STATUS : Register := ⟨"REG_STATUS".data, 0x00, [.b], []⟩
def REG_TARGET : Register := ⟨"REG_TARGET".data, 0x01, [.f], [.f]⟩
def REG_VELOCITY : Register := ⟨"REG_VELOCITY".data, 0x11, [.f], []⟩
def REG_TELEMETRY_REG : Register := ⟨"REG_TELEMETRY_REG".data, 0x1A, [], [.bstar]⟩

/-- The static catalog of `SimpleFOCRegisters`, in declaration order. -/
def registersList : List Register := [
  REG_STATUS,
  REG_TARGET,
  ⟨"REG_ENABLE_ALL".data, 0x03, [], [.b]⟩,
  ⟨"REG_ENABLE".data, 0x04, [.b], [.b]⟩,
  ⟨"REG_CONTROL_MODE".data, 0x05, [.b], [.b]⟩,
  ⟨"REG_TORQUE_MODE".data, 0x06, [.b], [.b]⟩,
  ⟨"REG_MODULATION_MODE".data, 0x07, [.b], [.b]⟩,
  ⟨"REG_ANGLE".data, 0x09, [.f], []⟩,
  ⟨"REG_POSITION".data, 0x10, [.i, .f], []⟩,
  REG_VELOCITY,
  ⟨"REG_SENSOR_ANGLE".data, 0x12, [.f], []⟩,
  ⟨"REG_SENSOR_MECHANICAL_ANGLE".data, 0x13, [.f], []⟩,
  ⟨"REG_SENSOR_VELOCITY".data, 0x14, [.f], []⟩,
  ⟨"REG_SENSOR_TIMESTAMP".data, 0x15, [.f], []⟩,
  ⟨"REG_PHASE_VOLTAGE".data, 0x16, [.f, .f, .f], [.f, .f, .f]⟩,
  ⟨"REG_PHASE_STATE".data, 0x17, [.b, .b, .b], [.b, .b, .b]⟩,
  ⟨"REG_DRIVER_ENABLE".data, 0x18, [.b], [.b]⟩,
  REG_TELEMETRY_REG,
  ⟨"REG_TELEMETRY_CTRL".data, 0x1B, [.b], [.b]⟩,
  ⟨"REG_TELEMETRY_DOWNSAMPLE".data, 0x1C, [.i], [.i]⟩,
  ⟨"REG_ITERATIONS_SEC".data, 0x1D, [.i], []⟩,
  ⟨"REG_VOLTAGE_Q".data, 0x20, [.f], []⟩,
  ⟨"REG_VOLTAGE_D".data, 0x21, [.f], []⟩,
  ⟨"REG_CURRENT_Q".data, 0x22, [.f], []⟩,
  ⟨"REG_CURRENT_D".data, 0x23, [.f], []⟩,
  ⟨"REG_CURRENT_A".data, 0x24, [.f], []⟩,
  ⟨"REG_CURRENT_B".data, 0x25, [.f], []⟩,
  ⟨"REG_CURRENT_C".data, 0x26, [.f], []⟩,
  ⟨"REG_CURRENT_ABC".data, 0x27, [.f, .f, .f], []⟩,
  ⟨"REG_CURRENT_DC".data, 0x28, [.f, .f], []⟩,
  ⟨"REG_VEL_PID_P".data, 0x30, [.f], [.f]⟩,
  ⟨"REG_VEL_PID_I".data, 0x31, [.f], [.f]⟩,
  ⟨"REG_VEL_PID_D".data, 0x32, [.f], [.f]⟩,
  ⟨"REG_VEL_PID_LIM".data, 0x33, [.f], [.f]⟩,
  ⟨"REG_VEL_PID_RAMP".data, 0x34, [.f], [.f]⟩,
  ⟨"REG_VEL_LPF_T".data, 0x35, [.f], [.f]⟩,
  ⟨"REG_ANG_PID_P".data, 0x36, [.f], [.f]⟩,
  ⟨"REG_ANG_PID_I".data, 0x37, [.f], [.f]⟩,
  ⟨"REG_ANG_PID_D".data, 0x38, [.f], [.f]⟩,
  ⟨"REG_ANG_PID_LIM".data, 0x39, [.f], [.f]⟩,
  ⟨"REG_ANG_PID_RAMP".data, 0x3A, [.f], [.f]⟩,
  ⟨"REG_ANG_LPF_T".data, 0x3B, [.f], [.f]⟩,
  ⟨"REG_CURQ_PID_P".data, 0x40, [.f], [.f]⟩,
  ⟨"REG_CURQ_PID_I".data, 0x41, [.f], [.f]⟩,
  ⟨"REG_CURQ_PID_D".data, 0x42, [.f], [.f]⟩,
  ⟨"REG_CURQ_PID_LIM".data, 0x43, [.f], [.f]⟩,
  ⟨"REG_CURQ_PID_RAMP".data, 0x44, [.f], [.f]⟩,
  ⟨"REG_CURQ_LPF_T".data, 0x45, [.f], [.f]⟩,
  ⟨"REG_CURD_PID_P".data, 0x46, [.f], [.f]⟩,
  ⟨"REG_CURD_PID_I".data, 0x47, [.f], [.f]⟩,
  ⟨"REG_CURD_PID_D".data, 0x48, [.f], [.f]⟩,
  ⟨"REG_CURD_PID_LIM".data, 0x49, [.f], [.f]⟩,
  ⟨"REG_CURD_PID_RAMP".data, 0x4A, [.f], [.f]⟩,
  ⟨"REG_CURD_LPF_T".data, 0x4B, [.f], [.f]⟩,
  ⟨"REG_VOLTAGE_LIMIT".data, 0x50, [.f], [.f]⟩,
  ⟨"REG_CURRENT_LIMIT".data, 0x51, [.f], [.f]⟩,
  ⟨"REG_VELOCITY_LIMIT".data, 0x52, [.f], [.f]⟩,
  ⟨"REG_DRIVER_VOLTAGE_LIMIT".data, 0x53, [.f], [.f]⟩,
  ⟨"REG_PWM_FREQUENCY".data, 0x54, [.i], [.i]⟩,
  ⟨"REG_DRIVER_VOLTAGE_PSU".data, 0x55, [.f], [.f]⟩,
  ⟨"REG_VOLTAGE_SENSOR_ALIGN".data, 0x56, [.f], [.f]⟩,
  ⟨"REG_MOTION_DOWNSAMPLE".data, 0x5F, [.i], [.i]⟩,
  ⟨"REG_ZERO_ELECTRIC_ANGLE".data, 0x60, [.f], [.f]⟩,
  ⟨"REG_SENSOR_DIRECTION".data, 0x61, [.b], [.b]⟩,
  ⟨"REG_ZERO_OFFSET".data, 0x62, [.f], [.f]⟩,
  ⟨"REG_POLE_PAIRS".data, 0x63, [.b], [.b]⟩,
  ⟨"REG_PHASE_RESISTANCE".data, 0x64, [.f], [.f]⟩,
  ⟨"REG_KV".data, 0x65, [.f], [.f]⟩,
  ⟨"REG_INDUCTANCE".data, 0x66, [.f], [.f]⟩,
  ⟨"REG_CURA_GAIN".data, 0x67, [.f], [.f]⟩,
  ⟨"REG_CURB_GAIN".data, 0x68, [.f], [.f]⟩,
  ⟨"REG_CURC_GAIN".data, 0x69, [.f], [.f]⟩,
  ⟨"REG_CURA_OFFSET".data, 0x6A, [.f], [.f]⟩,
  ⟨"REG_CURB_OFFSET".data, 0x6B, [.f], [.f]⟩,
  ⟨"REG_CURC_OFFSET".data, 0x6C, [.f], [.f]⟩,
  ⟨"REG_NUM_MOTORS".data, 0x70, [.b], [.b]⟩,
  ⟨"REG_SYS_TIME".data, 0x71, [.i], []⟩,
  ⟨"REG_MOTOR_ADDRESS".data, 0x7F, [.b], [.b]⟩]

/-- `SimpleFOCRegisters.by_id`: scan the catalog for a register with the
given id; `None` (plus a printed warning) when absent — non-fatal. -/
def by_id (i : Int) : Option Register :=
  registersList.find? (fun r => decide (Int.ofNat r.id = i))

/-- Is this optional register the telemetry-selection register?  Models the
Python comparison `reg == SimpleFOCRegisters.REG_TELEMETRY_REG`, which
compares by id and is `False` for `None`. -/
def isTelemetryReg (reg : Option Register) : Bool :=
  match reg with
  | some r => r.id == 0x1A
  | none => false

/-! ## Character/string helpers

The Python code works on `str`; the model works on `List Char`.  Rendering
and parsing of decimal/hex numerals are modeled explicitly: Python's
`str(int)` prints the plain decimal form, and the model's numeral parsers
accept exactly the plain forms (no `+` sign, underscores or surrounding
whitespace — the only forms this development ever feeds them). -/

/-- Digits of `n` in base 10, most significant first, via explicit fuel
(`fuel > n` suffices for the recursion to complete). -/
def natDigitsAux : Nat → Nat → List Char
  | 0, _ => []
  | fuel + 1, n => if n < 10 then [Nat.digitChar n]
                   else natDigitsAux fuel (n / 10) ++ [Nat.digitChar (n % 10)]

/-- Decimal rendering of a natural number, as Python's `str`. -/
def strOfNat (n : Nat) : List Char := natDigitsAux (n + 1) n

/-- Decimal rendering of an integer, as Python's `str`. -/
def strOfInt (n : Int) : List Char :=
  if n < 0 then '-' :: strOfNat n.natAbs else strOfNat n.toNat

/-- Numeric value of a decimal digit character. -/
def digitVal (c : Char) : Nat := c.toNat - 48

/-- Value of a string of decimal digits (most significant first). -/
def digitsToNat (cs : List Char) : Nat := cs.foldl (fun a c => 10 * a + digitVal c) 0

/-- Parse a non-empty all-digit string as a natural number; `ValueError`
otherwise (Python `int(s)` on a non-numeric string). -/
def pyParseNat (cs : List Char) : Except PyErr Nat :=
  if cs ≠ [] ∧ cs.all Char.isDigit then .ok (digitsToNat cs) else .error .valueError

/-- Python `int(s)` for plain decimal forms with an optional leading minus
sign. -/
def pyParseInt (cs : List Char) : Except PyErr Int :=
  if cs.take 1 = ['-'] then do let n ← pyParseNat (cs.drop 1); .ok (-(Int.ofNat n))
  else do let n ← pyParseNat cs; .ok (Int.ofNat n)

/-- Numeric value of a hexadecimal digit character, or `none`. -/
def hexVal (c : Char) : Option Nat :=
  if c.isDigit then some (c.toNat - 48)
  else if 'a' ≤ c ∧ c ≤ 'f' then some (c.toNat - 87)
  else if 'A' ≤ c ∧ c ≤ 'F' then some (c.toNat - 55)
  else none

/-- Value of a non-empty string of hex digits, or `ValueError`. -/
def hexDigitsToNat (cs : List Char) : Except PyErr Nat :=
  match cs with
  | [] => .error .valueError
  | _ =>
    cs.foldlM (fun a c => match hexVal c with
      | some v => .ok (16 * a + v)
      | none => .error .valueError) 0

/-- Python's `s.split(sep)` for a single-character separator. -/
def splitOnChar (sep : Char) : List Char → List (List Char)
  | [] => [[]]
  | c :: cs =>
    if c = sep then [] :: splitOnChar sep cs
    else match splitOnChar sep cs with
         | p :: ps => (c :: p) :: ps
         | [] => [[c]]

/-- Python's `sep.join(parts)` for a single-character separator. -/
def joinChar (sep : Char) : List (List Char) → List Char
  | [] => []
  | [p] => p
  | p :: ps => p ++ sep :: joinChar sep ps

/-- Uppercase a string character-wise (Python `str.upper` on ASCII). -/
def upperChars (cs : List Char) : List Char := cs.map Char.toUpper

/-- Lowercase a string character-wise (Python `str.lower` on ASCII). -/
def lowerChars (cs : List Char) : List Char := cs.map Char.toLower

/-- Catalog lookup by exact attribute name (`getattr(SimpleFOCRegisters, n)`
restricted to the `Register`-valued attributes, which are exactly the
`REG_`-prefixed ones). -/
def byName (cs : List Char) : Option Register :=
  registersList.find? (fun r => r.name == cs)

/-- `parse_register` (`registers.py`) on a string argument: `0x`-prefixed
strings and all-digit strings resolve through `by_id`; a string with the
exact `REG_` prefix is uppercased and looked up as an attribute name; any
other string gets `REG_` prepended to its uppercased form.  A missing
attribute raises `AttributeError`. -/
def parse_registerStr (cs : List Char) : Except PyErr (Option Register) :=
  if cs.take 2 = ['0', 'x'] then do
    let n ← hexDigitsToNat (cs.drop 2)
    .ok (by_id (Int.ofNat n))
  else if cs ≠ [] ∧ cs.all Char.isDigit then
    .ok (by_id (Int.ofNat (digitsToNat cs)))
  else if cs.take 4 = ['R', 'E', 'G', '_'] then
    match byName (upperChars cs) with
    | some r => .ok (some r)
    | none => .error .attributeError
  else
    match byName ("REG_".data ++ upperChars cs) with
    | some r => .ok (some r)
    | none => .error .attributeError

/-! ## Frame model

`Frame` and `FrameType` live in the package `__init__` (not under `src/`).
Modelled from the spec: §3 describes one variant per kind (REGISTER,
RESPONSE, SYNC, ALERT, TELEMETRY, HEADER), carried here as one loosely
populated record exactly as the Python `Frame` object is used by
`packets.py`, with `None` defaults for absent fields.  The mutable `header`
back-reference the telemetry decoder sets on a packet is not represented
(only the decoded values are, which is what the claims consult). -/
inductive FrameType where
  | REGISTER | RESPONSE | SYNC | ALERT | TELEMETRY | HEADER
deriving DecidableEq, Repr

/-- The values carried by a frame: either a raw byte buffer (binary
telemetry payloads are `bytearray` slices) or a list of parsed values. -/
inductive FrameValues where
  | raw : List Nat → FrameValues
  | vals : List PyVal → FrameValues

/-- Modelled from the spec: the `Frame` record of the package root, with
optional fields populated per kind. -/
structure Frame where
  frame_type : FrameType
  register : Option Register := none
  values : Option FrameValues := none
  telemetryid : Option Int := none
  registers : List (Option Register) := []
  motors : List Int := []
  alert : Option (List Char) := none

/-! ## Binary value codec (`BinaryComms.__parse_value`, `__write_values`) -/

/-- `int.to_bytes(4, 'little')`: the four little-endian bytes of `n`. -/
def toBytesLE4 (n : Nat) : List Nat :=
  [n % 256, n / 256 % 256, n / 65536 % 256, n / 16777216 % 256]

/-- Little-endian byte-list to number (`int.from_bytes(bs, 'little')`). -/
def fromBytesLE (bs : List Nat) : Nat := bs.foldr (fun b acc => b + 256 * acc) 0

/-- `BinaryComms.__parse_value(buffer, pos, t)`: decode one field of type
`t` at `pos`, returning the value and the field's size.  A field running
past the end of the buffer yields Python `None` (partial-payload
tolerance); `b*` raises (`Unsupported value type`); a non-finite float bit
pattern is outside the model. -/
def parseValueAt (buffer : List Nat) (pos : Nat) (t : Tag) : Except PyErr (PyVal × Nat) :=
  match t with
  | .f =>
    if buffer.length < pos + 4 then .ok (.vnone, 4)
    else match decodeFloat32 (fromBytesLE ((buffer.drop pos).take 4)) with
         | some q => .ok (.vfloat q, 4)
         | none => .error .unmodeled
  | .i =>
    if buffer.length < pos + 4 then .ok (.vnone, 4)
    else .ok (.vint (Int.ofNat (fromBytesLE ((buffer.drop pos).take 4))), 4)
  | .b =>
    if buffer.length < pos + 1 then .ok (.vnone, 1)
    else .ok (.vint (Int.ofNat (buffer.getD pos 0)), 1)
  | .bstar => .error .exception

/-- The decode loop of `BinaryComms.__parseFrame`: for each tag in the
signature parse one field and advance by its size; returns the values and
the final position. -/
def parseValuesLoop (buffer : List Nat) : Nat → List Tag → Except PyErr (List PyVal × Nat)
  | pos, [] => .ok ([], pos)
  | pos, t :: ts => do
      let (v, size) ← parseValueAt buffer pos t
      let (vs, fin) ← parseValuesLoop buffer (pos + size) ts
      .ok (v :: vs, fin)

/-- Python `float(v)` applied to a frame value. -/
def pyFloat (v : PyVal) : Except PyErr ℚ :=
  match v with
  | .vfloat q => .ok q
  | .vint n => .ok (mkRat n 1)
  | .vbool b => .ok (mkRat (if b then 1 else 0) 1)
  | _ => .error .typeError

/-- Python `int(v)` applied to a frame value (floats truncate toward
zero). -/
def pyInt (v : PyVal) : Except PyErr Int :=
  match v with
  | .vint n => .ok n
  | .vfloat q => .ok (Int.tdiv q.num (Int.ofNat q.den))
  | .vbool b => .ok (if b then 1 else 0)
  | _ => .error .typeError

/-- `int(x).to_bytes(1)`: one byte; raises `OverflowError` out of range. -/
def toByte (n : Int) : Except PyErr (List Nat) :=
  if 0 ≤ n ∧ n < 256 then .ok [n.toNat] else .error .overflowError

/-- `int(x).to_bytes(4, 'little')`: four bytes; raises `OverflowError` out
of range. -/
def toBytes4 (n : Int) : Except PyErr (List Nat) :=
  if 0 ≤ n ∧ n < 4294967296 then .ok (toBytesLE4 n.toNat) else .error .overflowError

/-- One iteration of the fixed-width encode loop of
`BinaryComms.__write_values`: `struct.pack('<f', float(v))`,
`int(v).to_bytes(4, 'little')` or `int(v).to_bytes(1)` by tag; any other
tag raises (`Unsupported value type`). -/
def encodeOneBinary (v : PyVal) (t : Tag) : Except PyErr (List Nat) :=
  match t with
  | .f => do
      let q ← pyFloat v
      match float32Bits q with
      | some bits => .ok (toBytesLE4 bits)
      | none => .error .unmodeled
  | .i => do let n ← pyInt v; toBytes4 n
  | .b => do let n ← pyInt v; toByte n
  | .bstar => .error .exception

/-- The fixed-width encode loop of `BinaryComms.__write_values` (the
non-telemetry branch): `for i, t in enumerate(types)` write
`values[i]` per `t`.  Surplus values are ignored; a missing value is an
`IndexError`, raised at the position the Python loop would raise it. -/
def encodeBinaryLoop : List PyVal → List Tag → Except PyErr (List Nat)
  | _, [] => .ok []
  | [], _ :: _ => .error .indexError
  | v :: vs, t :: ts => do
      let bs ← encodeOneBinary v t
      let rest ← encodeBinaryLoop vs ts
      .ok (bs ++ rest)

/-- The telemetry-selection branch of `BinaryComms.__write_values`: one raw
byte per value, ignoring the type-tag list. -/
def encodeTelemetryValues (values : List PyVal) : Except PyErr (List Nat) :=
  match values with
  | [] => .ok []
  | v :: vs => do
      let n ← pyInt v
      let b ← toByte n
      let rest ← encodeTelemetryValues vs
      .ok (b ++ rest)

/-! ## Binary frame parsing (`BinaryComms.__parseFrame`) -/

/-- `buffer[i]` with Python semantics: `IndexError` when out of range. -/
def pyIndex (buffer : List Nat) (i : Nat) : Except PyErr Nat :=
  match buffer.get? i with
  | some b => .ok b
  | none => .error .indexError

/-- The telemetry-register pair loop of the binary `R` branch: `count`
iterations; each reads `valm` and `valr` as bytes — both at `pos` (the
`r` branch uses `pos` and `pos+1` instead; `shiftSecond` selects that) —
then advances `pos` by 2 and appends the two-element list `[valm, valr]`. -/
def telemetryPairsLoop (buffer : List Nat) (shiftSecond : Bool) :
    Nat → Nat → Except PyErr (List PyVal)
  | _, 0 => .ok []
  | pos, count + 1 => do
      let (valm, _) ← parseValueAt buffer pos .b
      let (valr, _) ← parseValueAt buffer (if shiftSecond then pos + 1 else pos) .b
      let rest ← telemetryPairsLoop buffer shiftSecond (pos + 2) count
      .ok (.vlist [valm, valr] :: rest)

/-- The shared `R`/`r` payload decode: register lookup by the id byte, the
telemetry-selection special case (count byte then pairs), else the generic
`read_types` loop.  An unknown register id reaches
`None.read_types` — an `AttributeError`. -/
def parseRegisterPayload (buffer : List Nat) (shiftSecond : Bool) :
    Except PyErr (Option Register × List PyVal) := do
  let b1 ← pyIndex buffer 1
  let reg := by_id (Int.ofNat b1)
  if isTelemetryReg reg then do
    let (val, _) ← parseValueAt buffer 2 .b
    match val with
    | .vint n => do
        let values ← telemetryPairsLoop buffer shiftSecond 3 n.toNat
        .ok (reg, values)
    | _ => .error .typeError
  else
    match reg with
    | none => .error .attributeError
    | some r => do
        let (values, _) ← parseValuesLoop buffer 2 r.read_types
        .ok (reg, values)

/-- The header pair loop of the binary `H` branch: bytes from position 2 in
steps of 2 are `(motor, register-id)` pairs; an odd trailing byte raises
`IndexError` at `buffer[i+1]`. -/
def headerPairs : List Nat → Except PyErr (List Int × List (Option Register))
  | [] => .ok ([], [])
  | [_] => .error .indexError
  | m :: rid :: rest => do
      let (ms, rs) ← headerPairs rest
      .ok (Int.ofNat m :: ms, by_id (Int.ofNat rid) :: rs)

/-- `bytes.decode('ascii')`: characters for bytes < 128, else
`UnicodeDecodeError`. -/
def decodeAscii (bs : List Nat) : Except PyErr (List Char) :=
  bs.mapM (fun b => if b < 128 then .ok (Char.ofNat b) else .error .unicodeError)

/-- `BinaryComms.__parseFrame`: dispatch on the tag byte; `None` for an
unrecognized tag. -/
def parseFrameBin (buffer : List Nat) : Except PyErr (Option Frame) := do
  let b0 ← pyIndex buffer 0
  if b0 = 82 then do      -- ord('R')
    let (reg, values) ← parseRegisterPayload buffer false
    .ok (some { frame_type := .REGISTER, register := reg, values := some (.vals values) })
  else if b0 = 114 then do -- ord('r')
    let (reg, values) ← parseRegisterPayload buffer true
    .ok (some { frame_type := .RESPONSE, register := reg, values := some (.vals values) })
  else if b0 = 84 then do  -- ord('T')
    let b1 ← pyIndex buffer 1
    .ok (some { frame_type := .TELEMETRY, telemetryid := some (Int.ofNat b1),
                values := some (.raw (buffer.drop 2)) })
  else if b0 = 72 then do  -- ord('H')
    let b1 ← pyIndex buffer 1
    let (motors, registers) ← headerPairs (buffer.drop 2)
    .ok (some { frame_type := .HEADER, telemetryid := some (Int.ofNat b1),
                registers := registers, motors := motors })
  else if b0 = 83 then do  -- ord('S')
    let b1 ← pyIndex buffer 1
    .ok (some { frame_type := .SYNC, values := some (.vals [.vbool (b1 != 0)]) })
  else if b0 = 65 then do  -- ord('A')
    let alert ← decodeAscii (buffer.drop 1)
    .ok (some { frame_type := .ALERT, alert := some alert })
  else
    .ok none

/-! ## Binary framer state machine (`BinaryComms.__processByte`) -/

/-- The framer's session state: expected payload length, marker-just-seen
flag, accumulation buffer, and the `in_sync` flag. -/
structure BinState where
  expected : Nat
  marker : Bool
  buffer : List Nat
  in_sync : Bool
deriving Repr

/-- The fresh state of a just-constructed `BinaryComms`. -/
def freshBin : BinState := ⟨0, false, [], false⟩

/-- The binary marker byte `MARKER = 0xA5`. -/
def MARKER : Nat := 0xA5

/-- `BinaryComms.__processByte`, one byte at a time, returning the new state
and the frame completed by this byte, if any.  A parse failure inside a
delimited frame clears `in_sync` but is otherwise non-fatal; exceptions
escaping `__parseFrame` propagate. -/
def processByte (st : BinState) (byte : Nat) : Except PyErr (BinState × Option Frame) :=
  if byte = MARKER then
    if st.expected = 0 then
      if st.marker then .ok ({ st with expected := byte, marker := false }, none)
      else .ok ({ st with in_sync := false, marker := true, buffer := [] }, none)
    else if st.buffer.length = st.expected then do
      let frame ← parseFrameBin st.buffer
      .ok ({ expected := 0, marker := true, buffer := [], in_sync := frame.isSome }, frame)
    else
      .ok ({ st with buffer := st.buffer ++ [byte] }, none)
  else if (st.expected ≤ st.buffer.length ∧ 0 < st.expected) ∨ 255 ≤ st.buffer.length then
    .ok ({ st with in_sync := false, expected := 0, buffer := [] }, none)
  else if st.marker then
    .ok ({ st with expected := byte, marker := false }, none)
  else
    .ok ({ st with buffer := st.buffer ++ [byte] }, none)

/-- Feed a byte list through the framer, collecting the per-byte outcome
(the frame completed by that byte, if any). -/
def runBin (st : BinState) : List Nat → Except PyErr (BinState × List (Option Frame))
  | [] => .ok (st, [])
  | b :: bs => do
      let (st1, f) ← processByte st b
      let (st2, fs) ← runBin st1 bs
      .ok (st2, f :: fs)

/-! ## Text value codec (`ASCIIComms.value_to_string`, `values_to_string`,
`parse_value`) -/

/-- Round `a / b` (with `b > 0`) to the nearest integer, ties to even —
the rounding CPython's fixed-point float formatting performs. -/
def roundHalfEven (a : Int) (b : Nat) : Int :=
  let n := Int.fdiv a (Int.ofNat b)
  let r := a - n * Int.ofNat b
  if 2 * r < Int.ofNat b then n
  else if Int.ofNat b < 2 * r then n + 1
  else if n % 2 = 0 then n else n + 1

/-- Python's `"{:.6f}".format(q)`: the correctly rounded fixed-point
rendering of `q` with exactly six fractional digits. -/
def format6 (q : ℚ) : List Char :=
  let n := roundHalfEven (q.num * 1000000) q.den
  let a := n.natAbs
  (if n < 0 then ['-'] else []) ++
    strOfNat (a / 1000000) ++ '.' :: (List.replicate (6 - (strOfNat (a % 1000000)).length) '0'
      ++ strOfNat (a % 1000000))

/-- The unsigned-32-bit clamp chain of `ASCIIComms.value_to_string` for
`t == 'i'`. -/
def clampU32 (v : Int) : Int :=
  let v1 := if 4294967296 ≤ v then 4294967295 else v
  if v1 < 0 then
    (let v2 := v1 + 4294967296
     if v2 < 0 then 2147483648 else v2)
  else v1

/-- The byte clamp chain of `ASCIIComms.value_to_string` for `t == 'b'`. -/
def clampByte (v : Int) : Int :=
  let v1 := if v < 0 then
      (let v2 := 256 + v
       if v2 < 0 then 128 else v2)
    else v
  if 255 < v1 then 255 else v1

/-- Python `str(v)` for the values the default branch of `value_to_string`
can meet in this development; `repr` of floats and lists is outside the
model. -/
def pyStr (v : PyVal) : Except PyErr (List Char) :=
  match v with
  | .vint n => .ok (strOfInt n)
  | .vbool b => .ok (if b then "True".data else "False".data)
  | .vnone => .ok ("None".data)
  | _ => .error .unmodeled

/-- `ASCIIComms.value_to_string(value, t)`: floats as fixed 6-decimal text,
`'i'` through the unsigned-32-bit clamp, `'b'` through the byte clamp, any
other tag through `str(value)`. -/
def value_to_string (value : PyVal) (t : Tag) : Except PyErr (List Char) :=
  match t with
  | .f => do let q ← pyFloat value; .ok (format6 q)
  | .i => do let v ← pyInt value; .ok (strOfInt (clampU32 v))
  | .b => do let v ← pyInt value; .ok (strOfInt (clampByte v))
  | .bstar => pyStr value

/-- The `enumerate(types)` loop of `values_to_string`: one rendered field
per tag, reading `values[i]` and defaulting to `0` when values run out. -/
def textFieldsLoop : List PyVal → List Tag → Except PyErr (List (List Char))
  | _, [] => .ok []
  | [], t :: ts => do
      let s ← value_to_string (.vint 0) t
      let rest ← textFieldsLoop [] ts
      .ok (s :: rest)
  | v :: vs, t :: ts => do
      let s ← value_to_string v t
      let rest ← textFieldsLoop vs ts
      .ok (s :: rest)

/-- `ASCIIComms.values_to_string(values, types)`: if the first tag is `b*`,
render every value as a byte field; otherwise render one field per tag;
join with commas.  `types[0]` on an empty signature raises `IndexError`. -/
def values_to_string (values : List PyVal) (types : List Tag) : Except PyErr (List Char) :=
  match types with
  | [] => .error .indexError
  | t0 :: _ =>
    if t0 = .bstar then do
      let parts ← values.mapM (fun v => value_to_string v .b)
      .ok (joinChar ',' parts)
    else do
      let parts ← textFieldsLoop values types
      .ok (joinChar ',' parts)

/-- Parse the unsigned decimal part of a Python float literal:
`digits[.digits]` with at least one digit present; the exact rational
value.  (Python's `float()` then rounds this decimal to the nearest double;
every decimal this development parses is exactly representable, where that
rounding is the identity, so the model keeps the exact value.) -/
def parseUnsignedFloat (cs : List Char) : Except PyErr ℚ :=
  let ip := cs.takeWhile Char.isDigit
  let fp := (cs.dropWhile Char.isDigit).drop 1
  if cs.dropWhile Char.isDigit = [] then
    if ip = [] then .error .valueError else .ok (mkRat (Int.ofNat (digitsToNat ip)) 1)
  else if (cs.dropWhile Char.isDigit).take 1 = ['.'] ∧ fp.all Char.isDigit ∧ (ip ≠ [] ∨ fp ≠ []) then
    .ok (mkRat (Int.ofNat (digitsToNat ip * 10 ^ fp.length + digitsToNat fp)) (10 ^ fp.length))
  else .error .valueError

/-- Python `float(s)` for plain decimal forms with an optional leading
minus sign (no exponent notation — nothing in this development produces
one). -/
def parseFloatChars (cs : List Char) : Except PyErr ℚ :=
  if cs.take 1 = ['-'] then do
    let q ← parseUnsignedFloat (cs.drop 1)
    .ok (mkRat (-q.num) q.den)
  else parseUnsignedFloat cs

/-- `parse_value(valuestr)` (`packets.py`): `0x`-hex, `0b`-binary, float
when the text ends in `f`/`F` or contains a dot (the `f`/`F` suffix then
makes `float()` itself raise), else decimal int. -/
def parse_value (cs : List Char) : Except PyErr PyVal :=
  if cs.take 2 = ['0', 'x'] then do
    let n ← hexDigitsToNat (cs.drop 2)
    .ok (.vint (Int.ofNat n))
  else if cs.take 2 = ['0', 'b'] then
    match cs.drop 2 with
    | [] => .error .valueError
    | ds => do
        let n ← ds.foldlM (fun a c =>
            if c = '0' then .ok (2 * a) else if c = '1' then .ok (2 * a + 1)
            else .error .valueError) 0
        .ok (.vint (Int.ofNat n))
  else if cs.getLast? = some 'f' ∨ cs.getLast? = some 'F' ∨ '.' ∈ cs then do
    let q ← parseFloatChars cs
    .ok (.vfloat q)
  else do
    let n ← pyParseInt cs
    .ok (.vint n)

/-- `[parse_value(v) for v in valuesstr.split(',')]`. -/
def decodeTextValues (cs : List Char) : Except PyErr (List PyVal) :=
  (splitOnChar ',' cs).mapM parse_value

/-- `parse_register_and_values(command)` (`packets.py`): split on `=`,
taking the first two fields; `int()` the register id and resolve it via
`parse_register` (raising `ValueError` when unknown); `parse_value` each
comma-separated value field. -/
def parse_register_and_values (cs : List Char) : Except PyErr (Register × List PyVal) :=
  match splitOnChar '=' cs with
  | regstr :: valuesstr :: _ => do
      let rid ← pyParseInt regstr
      match by_id rid with
      | none => .error .valueError
      | some reg => do
          let values ← decodeTextValues valuesstr
          .ok (reg, values)
  | _ => .error .valueError

/-! ## Text frame parsing and sending (`ASCIIComms`) -/

/-- The header pair loop of the text `H` branch: each comma field is
`motor:registerid`; an unknown register id appends `None` after a printed
warning (non-fatal). -/
def asciiHeaderPairs : List (List Char) → Except PyErr (List Int × List (Option Register))
  | [] => .ok ([], [])
  | r :: rs => do
      match splitOnChar ':' r with
      | mot :: regstr :: _ => do
          let m ← pyParseInt mot
          let rid ← pyParseInt regstr
          let (ms, regs) ← asciiHeaderPairs rs
          .ok (m :: ms, by_id rid :: regs)
      | _ => .error .valueError

/-- `ASCIIComms.__parseFrame(framestr)`: dispatch on the leading tag
character; `None` for an unrecognized tag. -/
def parseFrameAscii (cs : List Char) : Except PyErr (Option Frame) :=
  match cs with
  | [] => .ok none
  | c :: rest =>
    if c = 'R' then do
      let (reg, values) ← parse_register_and_values rest
      .ok (some { frame_type := .REGISTER, register := some reg, values := some (.vals values) })
    else if c = 'r' then do
      let (reg, values) ← parse_register_and_values rest
      .ok (some { frame_type := .RESPONSE, register := some reg, values := some (.vals values) })
    else if c = 'T' then
      match splitOnChar '=' rest with
      | tidstr :: valuesstr :: _ => do
          let tid ← pyParseInt tidstr
          let values ← decodeTextValues valuesstr
          .ok (some { frame_type := .TELEMETRY, telemetryid := some tid,
                      values := some (.vals values) })
      | _ => .error .valueError
    else if c = 'H' then
      match splitOnChar '=' rest with
      | tidstr :: valuesstr :: _ => do
          let tid ← pyParseInt tidstr
          let (motors, registers) ← asciiHeaderPairs (splitOnChar ',' valuesstr)
          .ok (some { frame_type := .HEADER, telemetryid := some tid,
                      registers := registers, motors := motors })
      | _ => .error .valueError
    else if c = 'S' then
      match rest with
      | [] => .error .indexError
      | c1 :: _ => .ok (some { frame_type := .SYNC, values := some (.vals [.vbool (c1 != '0')]) })
    else if c = 'A' then
      .ok (some { frame_type := .ALERT, alert := some rest })
    else
      .ok none

/-- The values of a frame as the Python iteration over them sees them
(iterating a `bytearray` yields ints). -/
def toValueList (fv : FrameValues) : List PyVal :=
  match fv with
  | .raw bs => bs.map (fun b => .vint (Int.ofNat b))
  | .vals vs => vs

/-- `ASCIIComms.send_frame(frame)`: build the tag-prefixed line and write it
followed by `\n`; the value returned is the full line written to the
transport.  In the HEADER branch the field expression
`str(v[0]) + ":" + str[int(v[1])]` subscripts the built-in `str` type and
raises `TypeError` for every element, so any non-empty register list raises
before the single `write` call is reached. -/
def sendFrameAscii (in_sync : Bool) (frame : Frame) : Except PyErr (List Char) := do
  let body ← match frame.frame_type with
    | .REGISTER => do
        match frame.register with
        | none => .error .attributeError
        | some reg => do
            let vals := (frame.values.map toValueList).getD []
            if vals.isEmpty = false then do
              let s ← values_to_string vals reg.write_types
              .ok ('R' :: strOfNat reg.id ++ '=' :: s)
            else
              .ok ('R' :: strOfNat reg.id)
    | .SYNC => .ok ['S', if in_sync then '1' else '0']
    | .ALERT => do
        let s ← match frame.alert with
          | some a => .ok a
          | none => .ok "None".data
        .ok ('A' :: s)
    | .RESPONSE => do
        match frame.register with
        | none => .error .attributeError
        | some reg => do
            let vals := (frame.values.map toValueList).getD []
            let s ← values_to_string vals reg.read_types
            .ok ('r' :: reg.name ++ '=' :: s)
    | .TELEMETRY => do
        let tid := match frame.telemetryid with
          | some t => strOfInt t
          | none => "None".data
        match frame.values with
        | none => .error .typeError
        | some fv => do
            let parts ← (toValueList fv).mapM pyStr
            .ok ('T' :: tid ++ '=' :: joinChar ',' parts)
    | .HEADER => do
        let tid := match frame.telemetryid with
          | some t => strOfInt t
          | none => "None".data
        if frame.registers = [] then
          .ok ('H' :: tid ++ ['='])
        else
          .error .typeError
  .ok (body ++ ['\n'])

/-- The text framer's session state: line buffer and `in_sync` flag. -/
structure AsciiState where
  buffer : List Char
  in_sync : Bool
deriving Repr

/-- The fresh state of a just-constructed `ASCIIComms`. -/
def freshAscii : AsciiState := ⟨[], false⟩

/-- One character step of `ASCIIComms.get_frame`: returns the new state,
any lines transmitted as a side effect, and — when a newline completes a
line while in sync — the parse outcome that `get_frame` returns. -/
def processCharAscii (st : AsciiState) (c : Char) :
    Except PyErr (AsciiState × List (List Char) × Option (Option Frame)) :=
  if c = '\n' then
    if st.in_sync then do
      let f ← parseFrameAscii st.buffer
      .ok (⟨[], true⟩, [], some f)
    else do
      let line ← sendFrameAscii true { frame_type := .SYNC }
      .ok (⟨[], true⟩, [line], none)
  else if c = '\r' then
    .ok (st, [], none)
  else
    .ok ({ st with buffer := st.buffer ++ [c] }, [], none)

/-- Feed a character list through the text framer, collecting transmitted
lines and the `get_frame` return events. -/
def runAscii (st : AsciiState) :
    List Char → Except PyErr (AsciiState × List (List Char) × List (Option Frame))
  | [] => .ok (st, [], [])
  | c :: cs => do
      let (st1, sent, ev) ← processCharAscii st c
      let (st2, sents, evs) ← runAscii st1 cs
      .ok (st2, sent ++ sents, (match ev with | some f => [f] | none => []) ++ evs)

/-! ## Telemetry decoding (`BinaryComms.parse_telemetry`) -/

/-- `__parse_value` applied to `packet.values`: only a raw byte payload
(the `bytearray` a binary TELEMETRY frame carries) can be sliced and
unpacked; anything else is a `TypeError` at the first field access. -/
def parseValueAtField (values : Option FrameValues) (pos : Nat) (t : Tag) :
    Except PyErr (PyVal × Nat) :=
  match values with
  | some (.raw bs) => parseValueAt bs pos t
  | _ => .error .typeError

/-- The register loop of `BinaryComms.parse_telemetry`: iterate the
header's register list in order; for each register consume its read-type
signature sequentially from the payload; `None.read_types` raises. -/
def telemetryHeaderLoop (values : Option FrameValues) :
    List (Option Register) → Nat → Except PyErr (List PyVal × Nat)
  | [], pos => .ok ([], pos)
  | none :: _, _ => .error .attributeError
  | some r :: regs, pos => do
      let (vs, pos1) ← telemetryRegLoop values r.read_types pos
      let (rest, fin) ← telemetryHeaderLoop values regs pos1
      .ok (vs ++ rest, fin)
where
  /-- The inner `for t in reg.read_types` loop. -/
  telemetryRegLoop (values : Option FrameValues) :
      List Tag → Nat → Except PyErr (List PyVal × Nat)
    | [], pos => .ok ([], pos)
    | t :: ts, pos => do
        let (v, size) ← parseValueAtField values pos t
        let (vs, fin) ← telemetryRegLoop values ts (pos + size)
        .ok (v :: vs, fin)

/-- `BinaryComms.parse_telemetry(packet, header)`: with a header, decode the
raw payload against the header's register list into one flat value list;
with no header the values list is left empty.  (The Python code also stores
the header object on the packet; the model keeps only the values.) -/
def parse_telemetry (packet : Frame) (header : Option Frame) : Except PyErr Frame :=
  match header with
  | none => .ok { packet with values := some (.vals []) }
  | some h => do
      let (vals, _) ← telemetryHeaderLoop packet.values h.registers 0
      .ok { packet with values := some (.vals vals) }

/-! ## Type-validity of value vectors

"A value vector matching a type signature": ints within the type's range,
floats exactly float32-representable (for the text codec additionally
exactly renderable with 6 fractional digits, so that the 6-decimal wire
format can carry them). -/

/-- One value matching one tag, for the binary codec. -/
def ValidBin (t : Tag) (v : PyVal) : Bool :=
  match t, v with
  | .b, .vint n => decide (0 ≤ n ∧ n < 256)
  | .i, .vint n => decide (0 ≤ n ∧ n < 4294967296)
  | .f, .vfloat q => (float32Bits q).isSome
  | _, _ => false

/-- One value matching one tag, for the text codec. -/
def ValidText (t : Tag) (v : PyVal) : Bool :=
  match t, v with
  | .b, .vint n => decide (0 ≤ n ∧ n < 256)
  | .i, .vint n => decide (0 ≤ n ∧ n < 4294967296)
  | .f, .vfloat q =>
      (float32Bits q).isSome && decide ((mkRat (q.num * 1000000) q.den).den = 1)
  | _, _ => false

/-- A value vector matching a type signature element-wise (same length). -/
def ValidList (valid : Tag → PyVal → Bool) : List Tag → List PyVal → Bool
  | [], [] => true
  | t :: ts, v :: vs => valid t v && ValidList valid ts vs
  | _, _ => false

/-- Hex digits of `n`, most significant first (fuel-based like
`natDigitsAux`); renders with lowercase letters, the form Python's hex
literals use. -/
def natHexAux : Nat → Nat → List Char
  | 0, _ => []
  | fuel + 1, n => if n < 16 then [Nat.digitChar n]
                   else natHexAux fuel (n / 16) ++ [Nat.digitChar (n % 16)]

/-- Lowercase hex rendering of a natural number (no `0x` prefix). -/
def hexStrOfNat (n : Nat) : List Char := natHexAux (n + 1) n

/-- Decidable equality for `Except` results, used to evaluate lookup
outcomes in closed statements. -/
instance exceptDecEq {ε α : Type} [DecidableEq ε] [DecidableEq α] : DecidableEq (Except ε α) :=
  fun a b =>
    match a, b with
    | .ok x, .ok y =>
      if h : x = y then .isTrue (by rw [h]) else .isFalse (fun hc => h (by injection hc))
    | .error x, .error y =>
      if h : x = y then .isTrue (by rw [h]) else .isFalse (fun hc => h (by injection hc))
    | .ok _, .error _ => .isFalse (fun hc => Except.noConfusion hc)
    | .error _, .ok _ => .isFalse (fun hc => Except.noConfusion hc)

/-! ## Helper lemmas -/

theorem okBind {ε α β : Type} (a : α) (f : α → Except ε β) :
    (Except.ok a : Except ε α) >>= f = f a := rfl

theorem errBind {ε α β : Type} (e : ε) (f : α → Except ε β) :
    (Except.error e : Except ε α) >>= f = .error e := rfl

attribute [simp] okBind errBind

theorem digitChar_isDigit (d : Nat) (h : d < 10) : (Nat.digitChar d).isDigit = true := by
  interval_cases d <;> decide

theorem digitVal_digitChar (d : Nat) (h : d < 10) : digitVal (Nat.digitChar d) = d := by
  interval_cases d <;> decide

theorem digit_ne (c : Char) (h : c.isDigit = true) :
    c ≠ '-' ∧ c ≠ '.' ∧ c ≠ ',' ∧ c ≠ 'x' ∧ c ≠ 'b' ∧ c ≠ 'f' ∧ c ≠ 'F' := by
  refine ⟨?_, ?_, ?_, ?_, ?_, ?_, ?_⟩ <;> (intro heq; subst heq; exact absurd h (by decide))

theorem digitsToNat_append (l : List Char) (c : Char) :
    digitsToNat (l ++ [c]) = 10 * digitsToNat l + digitVal c := by
  simp [digitsToNat, List.foldl_append]

theorem natDigitsAux_spec :
    ∀ fuel n, n < fuel →
      (natDigitsAux fuel n).all Char.isDigit = true ∧
      natDigitsAux fuel n ≠ [] ∧
      digitsToNat (natDigitsAux fuel n) = n := by
  intro fuel
  induction fuel with
  | zero => intro n hn; omega
  | succ fuel ih =>
    intro n hn
    by_cases h10 : n < 10
    · refine ⟨?_, ?_, ?_⟩ <;>
        simp [natDigitsAux, h10, digitChar_isDigit n h10, digitsToNat,
          digitVal_digitChar n h10]
    · have h1 : n / 10 < fuel := by omega
      obtain ⟨ha, hne, hv⟩ := ih (n / 10) h1
      have hm : n % 10 < 10 := by omega
      refine ⟨?_, ?_, ?_⟩
      · simp [natDigitsAux, h10, List.all_append, ha, digitChar_isDigit _ hm]
      · simp [natDigitsAux, h10]
      · simp only [natDigitsAux, if_neg h10, digitsToNat_append, hv,
          digitVal_digitChar _ hm]
        omega

theorem strOfNat_spec (n : Nat) :
    (strOfNat n).all Char.isDigit = true ∧ strOfNat n ≠ [] ∧
      digitsToNat (strOfNat n) = n :=
  natDigitsAux_spec (n + 1) n (by omega)

theorem natDigitsAux_length :
    ∀ fuel n k, n < fuel → n < 10 ^ k → 1 ≤ k → (natDigitsAux fuel n).length ≤ k := by
  intro fuel
  induction fuel with
  | zero => intro n k hn; omega
  | succ fuel ih =>
    intro n k hn hk h1
    by_cases h10 : n < 10
    · simp [natDigitsAux, h10]; omega
    · have hk2 : 2 ≤ k := by
        by_contra hcon
        have hk1 : k = 1 := by omega
        subst hk1; simp at hk; omega
      have hdiv : n / 10 < 10 ^ (k - 1) := by
        have hpow : 10 ^ (k - 1) * 10 = 10 ^ k := by
          rw [← pow_succ]; congr 1; omega
        omega
      have := ih (n / 10) (k - 1) (by omega) hdiv (by omega)
      simp [natDigitsAux, h10]
      omega

theorem strOfNat_length_le (n k : Nat) (h : n < 10 ^ k) (hk : 1 ≤ k) :
    (strOfNat n).length ≤ k :=
  natDigitsAux_length (n + 1) n k (by omega) h hk

theorem pyParseNat_strOfNat (n : Nat) : pyParseNat (strOfNat n) = .ok n := by
  obtain ⟨ha, hne, hv⟩ := strOfNat_spec n
  simp [pyParseNat, ha, hne, hv]

theorem pyParseInt_strOfInt (m : Int) : pyParseInt (strOfInt m) = .ok m := by
  by_cases hm : m < 0
  · simp only [strOfInt, if_pos hm, pyParseInt, List.take, List.drop]
    simp [pyParseNat_strOfNat, abs_of_neg hm]
  · simp only [strOfInt, if_neg hm]
    obtain ⟨ha, hne, hv⟩ := strOfNat_spec m.toNat
    rcases h : strOfNat m.toNat with _ | ⟨c, rest⟩
    · exact absurd h hne
    · have hcd : c.isDigit = true := by
        rw [h] at ha; simp [List.all_cons] at ha; exact ha.1
      have hcne := (digit_ne c hcd).1
      have : pyParseNat (c :: rest) = .ok m.toNat := by rw [← h, pyParseNat_strOfNat]
      simp [pyParseInt, List.take, hcne, this]
      omega

theorem splitOnChar_no_sep (sep : Char) :
    ∀ p : List Char, sep ∉ p → splitOnChar sep p = [p] := by
  intro p
  induction p with
  | nil => intro; rfl
  | cons c cs ih =>
    intro h
    have hc : c ≠ sep := fun hc => h (hc ▸ List.mem_cons_self c cs)
    have hcs : sep ∉ cs := fun hm => h (List.mem_cons_of_mem c hm)
    simp [splitOnChar, hc, ih hcs]

theorem splitOnChar_append (sep : Char) :
    ∀ p rest : List Char, sep ∉ p →
      splitOnChar sep (p ++ sep :: rest) = p :: splitOnChar sep rest := by
  intro p
  induction p with
  | nil => intro rest _; simp [splitOnChar]
  | cons c cs ih =>
    intro rest h
    have hc : c ≠ sep := fun hc => h (hc ▸ List.mem_cons_self c cs)
    have hcs : sep ∉ cs := fun hm => h (List.mem_cons_of_mem c hm)
    simp [splitOnChar, hc, ih rest hcs]

theorem splitOnChar_joinChar (sep : Char) :
    ∀ parts : List (List Char), parts ≠ [] → (∀ p ∈ parts, sep ∉ p) →
      splitOnChar sep (joinChar sep parts) = parts := by
  intro parts
  induction parts with
  | nil => intro h; exact absurd rfl h
  | cons p ps ih =>
    intro _ hall
    match ps, ih with
    | [], _ => exact splitOnChar_no_sep sep p (hall p (List.mem_cons_self p []))
    | p2 :: ps2, ih =>dsimp only [joinChar]
                      rw [splitOnChar_append sep p _ (hall p (List.mem_cons_self _ _))]
                      rw [ih (by simp) (fun q hq => hall q (List.mem_cons_of_mem p hq))]

theorem fromBytesLE_toBytesLE4 (m : Nat) (h : m < 4294967296) :
    fromBytesLE (toBytesLE4 m) = m := by
  simp [fromBytesLE, toBytesLE4]
  omega

theorem toBytesLE4_length (m : Nat) : (toBytesLE4 m).length = 4 := rfl

theorem float32Bits_decode {q : ℚ} {b : Nat} (h : float32Bits q = some b) :
    b < 4294967296 ∧ decodeFloat32 b = some q := by
  unfold float32Bits at h
  by_cases h0 : q.num = 0
  · rw [if_pos h0] at h
    have hq : q = 0 := by
      have := Rat.num_eq_zero.mp h0
      exact this
    obtain rfl : b = 0 := by injection h with h1; omega
    subst hq
    exact ⟨by omega, by decide⟩
  · rw [if_neg h0] at h
    have := List.find?_some h
    have hp := of_decide_eq_true this
    exact ⟨hp.1, hp.2⟩

theorem parseValueAt_encoded {t : Tag} {v : PyVal} (h : ValidBin t v = true) :
    ∃ bs, encodeOneBinary v t = .ok bs ∧
      ∀ pre post : List Nat,
        parseValueAt (pre ++ (bs ++ post)) pre.length t = .ok (v, bs.length) := by
  cases t <;> cases v <;> simp [ValidBin] at h
  case b.vint n =>
    refine ⟨[n.toNat], ?_, ?_⟩
    · simp [encodeOneBinary, pyInt, toByte, h.1, h.2]
    · intro pre post
      have hlen : ¬ (pre ++ (n.toNat :: post)).length < pre.length + 1 := by
        simp [List.length_append]
      have hget : (pre ++ (n.toNat :: post)).getD pre.length 0 = n.toNat := by
        rw [List.getD_eq_getElem?_getD, List.getElem?_append_right (Nat.le_refl _)]
        simp
      simp only [parseValueAt, List.singleton_append, if_neg hlen, hget,
        List.length_singleton]
      have hn : Int.ofNat n.toNat = n := by
        rw [Int.ofNat_eq_natCast]; omega
      rw [hn]
  case i.vint n =>
    refine ⟨toBytesLE4 n.toNat, ?_, ?_⟩
    · simp [encodeOneBinary, pyInt, toBytes4, h.1, h.2]
    · intro pre post
      have hlen : ¬ (pre ++ (toBytesLE4 n.toNat ++ post)).length < pre.length + 4 := by
        simp [List.length_append, toBytesLE4_length]
      have hslice : ((pre ++ (toBytesLE4 n.toNat ++ post)).drop pre.length).take 4 =
          toBytesLE4 n.toNat := by
        rw [List.drop_left, show (4 : ℕ) = (toBytesLE4 n.toNat).length from rfl,
          List.take_left ..]
      have hnn : n.toNat < 4294967296 := by omega
      have hn : Int.ofNat n.toNat = n := by
        rw [Int.ofNat_eq_natCast]; omega
      simp [parseValueAt, hlen, hslice, fromBytesLE_toBytesLE4 n.toNat hnn,
        toBytesLE4_length, hn]
      exact h.1
  case f.vfloat q =>
    obtain ⟨bits, hbits⟩ := Option.isSome_iff_exists.mp h
    obtain ⟨hlt, hdec⟩ := float32Bits_decode hbits
    refine ⟨toBytesLE4 bits, ?_, ?_⟩
    · simp [encodeOneBinary, pyFloat, hbits]
    · intro pre post
      have hlen : ¬ (pre ++ (toBytesLE4 bits ++ post)).length < pre.length + 4 := by
        simp [List.length_append, toBytesLE4_length]
      have hslice : ((pre ++ (toBytesLE4 bits ++ post)).drop pre.length).take 4 =
          toBytesLE4 bits := by
        rw [List.drop_left, show (4 : ℕ) = (toBytesLE4 bits).length from rfl,
          List.take_left ..]
      simp [parseValueAt, hlen, hslice, fromBytesLE_toBytesLE4 bits hlt, hdec,
        toBytesLE4_length]

theorem encodeBinaryLoop_ok :
    ∀ {ts : List Tag} {vs : List PyVal}, ValidList ValidBin ts vs = true →
      ∃ buf, encodeBinaryLoop vs ts = .ok buf := by
  intro ts
  induction ts with
  | nil =>
    intro vs h
    cases vs with
    | nil => exact ⟨[], rfl⟩
    | cons v vs => simp [ValidList] at h
  | cons t ts ih =>
    intro vs h
    cases vs with
    | nil => simp [ValidList] at h
    | cons v vs =>
      simp only [ValidList, Bool.and_eq_true] at h
      obtain ⟨bs, hbs, _⟩ := parseValueAt_encoded h.1
      obtain ⟨buf, hbuf⟩ := ih h.2
      exact ⟨bs ++ buf, by simp [encodeBinaryLoop, hbs, hbuf]⟩

theorem parseValuesLoop_encoded :
    ∀ {ts : List Tag} {vs : List PyVal}, ValidList ValidBin ts vs = true →
      ∀ {buf : List Nat}, encodeBinaryLoop vs ts = .ok buf →
      ∀ pre : List Nat,
        parseValuesLoop (pre ++ buf) pre.length ts = .ok (vs, pre.length + buf.length) := by
  intro ts
  induction ts with
  | nil =>
    intro vs h buf hbuf pre
    cases vs with
    | cons v vs => simp [ValidList] at h
    | nil =>
      simp [encodeBinaryLoop] at hbuf
      subst hbuf
      simp [parseValuesLoop]
  | cons t ts ih =>
    intro vs h buf hbuf pre
    cases vs with
    | nil => simp [ValidList] at h
    | cons v vs =>
      simp only [ValidList, Bool.and_eq_true] at h
      obtain ⟨bs, hbs, hparse⟩ := parseValueAt_encoded h.1
      obtain ⟨buf2, hbuf2⟩ := encodeBinaryLoop_ok h.2
      rw [encodeBinaryLoop] at hbuf
      rw [hbs, hbuf2] at hbuf
      simp at hbuf
      subst hbuf
      have hih := ih h.2 hbuf2 (pre ++ bs)
      rw [List.append_assoc, List.length_append] at hih
      simp only [parseValuesLoop, hparse pre buf2, okBind, hih]
      simp [List.length_append]
      omega

theorem takeWhile_append_stop (p : Char → Bool) (c : Char) (hc : p c = false) :
    ∀ l1 l2 : List Char, l1.all p = true →
      (l1 ++ c :: l2).takeWhile p = l1 ∧ (l1 ++ c :: l2).dropWhile p = c :: l2 := by
  intro l1
  induction l1 with
  | nil => intro l2 _; simp [List.takeWhile, List.dropWhile, hc]
  | cons x xs ih =>
    intro l2 h
    simp only [List.all_cons, Bool.and_eq_true] at h
    have := ih l2 h.2
    simp [List.takeWhile, List.dropWhile, h.1, this.1, this.2]

theorem digitsToNat_replicate_zero (j : Nat) (ds : List Char) :
    digitsToNat (List.replicate j '0' ++ ds) = digitsToNat ds := by
  induction j with
  | zero => simp
  | succ j ih =>
    simp only [List.replicate_succ, List.cons_append, digitsToNat, List.foldl_cons]
    have : 10 * 0 + digitVal '0' = 0 := by decide
    rw [this]
    exact ih

theorem take2_ne_digit_or_dot (s : List Char)
    (h2 : ∀ c0 c1 rest, s = c0 :: c1 :: rest → (c1.isDigit = true ∨ c1 = '.')) :
    s.take 2 ≠ ['0', 'x'] ∧ s.take 2 ≠ ['0', 'b'] := by
  rcases s with _ | ⟨c0, _ | ⟨c1, rest⟩⟩
  · simp
  · simp
  · have hh := h2 c0 c1 rest rfl
    constructor <;> intro hcon <;>
      simp only [List.take_succ_cons, List.take_zero, List.cons.injEq, and_true] at hcon
    · obtain ⟨-, h1⟩ := hcon
      subst h1
      rcases hh with hh | hh <;> exact absurd hh (by decide)
    · obtain ⟨-, h1⟩ := hcon
      subst h1
      rcases hh with hh | hh <;> exact absurd hh (by decide)

theorem parse_value_digits (ds : List Char) (hne : ds ≠ []) (hall : ds.all Char.isDigit = true) :
    parse_value ds = .ok (.vint (Int.ofNat (digitsToNat ds))) := by
  have hmem : ∀ x ∈ ds, x.isDigit = true := List.all_eq_true.mp hall
  have h2 : ∀ c0 c1 rest, ds = c0 :: c1 :: rest → (c1.isDigit = true ∨ c1 = '.') := by
    intro c0 c1 rest h
    exact Or.inl (hmem c1 (h ▸ List.mem_cons_of_mem c0 (List.mem_cons_self c1 rest)))
  obtain ⟨hx, hb⟩ := take2_ne_digit_or_dot ds h2
  have hlast : ¬ (ds.getLast? = some 'f' ∨ ds.getLast? = some 'F' ∨ '.' ∈ ds) := by
    rintro (h | h | h)
    · exact absurd (hmem _ (List.mem_of_getLast?_eq_some h)) (by decide)
    · exact absurd (hmem _ (List.mem_of_getLast?_eq_some h)) (by decide)
    · exact absurd (hmem _ h) (by decide)
  rcases ds with _ | ⟨c, cs⟩
  · exact absurd rfl hne
  · have hc : c.isDigit = true := hmem c (List.mem_cons_self c cs)
    have hdash : ¬ ((c :: cs).take 1 = ['-']) := by
      simp only [List.take_succ_cons, List.take_zero, List.cons.injEq, and_true]
      exact (digit_ne c hc).1
    simp only [parse_value, if_neg hx, if_neg hb, if_neg hlast, pyParseInt, if_neg hdash,
      pyParseNat, if_pos (And.intro hne hall), okBind]

theorem clampByte_id (n : Int) (h0 : 0 ≤ n) (h1 : n < 256) : clampByte n = n := by
  unfold clampByte; dsimp only; split_ifs <;> omega

theorem clampU32_id (n : Int) (h0 : 0 ≤ n) (h1 : n < 4294967296) : clampU32 n = n := by
  unfold clampU32; dsimp only; split_ifs <;> omega

theorem strOfInt_nonneg (n : Int) (h : 0 ≤ n) : strOfInt n = strOfNat n.toNat := by
  simp only [strOfInt, if_neg (by omega : ¬ n < 0)]

theorem text_rt_nat (n : Int) (h0 : 0 ≤ n) :
    parse_value (strOfInt n) = .ok (.vint n) ∧ ',' ∉ strOfInt n ∧ strOfInt n ≠ [] := by
  rw [strOfInt_nonneg n h0]
  obtain ⟨hall, hne, hval⟩ := strOfNat_spec n.toNat
  have hmem : ∀ x ∈ strOfNat n.toNat, x.isDigit = true := List.all_eq_true.mp hall
  refine ⟨?_, ?_, hne⟩
  · rw [parse_value_digits _ hne hall, hval]
    congr 2
    rw [Int.ofNat_eq_natCast]; omega
  · intro hm
    exact absurd (hmem _ hm) (by decide)

theorem mkRat_den_one_dvd (a : Int) (b : Nat) (hb : b ≠ 0) (h : (mkRat a b).den = 1) :
    (b : Int) ∣ a := by
  have hbQ : (b : ℚ) ≠ 0 := Nat.cast_ne_zero.mpr hb
  have hval : ((mkRat a b).num : ℚ) = mkRat a b := Rat.coe_int_num_of_den_eq_one h
  refine ⟨(mkRat a b).num, ?_⟩
  have hq : (a : ℚ) = (b : ℚ) * ((mkRat a b).num : ℚ) := by
    rw [hval, Rat.mkRat_eq_div]
    field_simp
  exact_mod_cast hq

theorem roundHalfEven_exact (b : Nat) (k : Int) (hb : 0 < b) :
    roundHalfEven ((b : Int) * k) b = k := by
  unfold roundHalfEven
  dsimp only
  rw [Int.ofNat_eq_natCast]
  have hfd : Int.fdiv ((b : Int) * k) (b : Int) = k :=
    Int.mul_fdiv_cancel_left k (by exact_mod_cast hb.ne')
  rw [hfd]
  have hr : (b : Int) * k - k * (b : Int) = 0 := by ring
  rw [hr]
  split_ifs <;> omega

theorem q_eq_mkRat_millionth (q : ℚ) (k : Int) (hk : q.num * 1000000 = (q.den : Int) * k) :
    q = mkRat k 1000000 := by
  have hd : ((q.den : ℚ)) ≠ 0 := Nat.cast_ne_zero.mpr q.den_nz
  have hs : (q.num : ℚ) * 1000000 = (q.den : ℚ) * (k : ℚ) := by exact_mod_cast hk
  rw [Rat.mkRat_eq_div, ← Rat.num_div_den q, div_eq_div_iff hd (by norm_num)]
  push_cast at hs ⊢
  linarith

theorem fp_pad_facts (B : Nat) (hB : B < 1000000) :
    (List.replicate (6 - (strOfNat B).length) '0' ++ strOfNat B).all Char.isDigit = true ∧
    (List.replicate (6 - (strOfNat B).length) '0' ++ strOfNat B).length = 6 ∧
    digitsToNat (List.replicate (6 - (strOfNat B).length) '0' ++ strOfNat B) = B := by
  obtain ⟨hall, hne, hval⟩ := strOfNat_spec B
  have hlen : (strOfNat B).length ≤ 6 :=
    strOfNat_length_le B 6 (by omega) (by omega)
  refine ⟨?_, ?_, ?_⟩
  · simp [List.all_append, hall, List.all_replicate]
  · simp [List.length_append, List.length_replicate]
    omega
  · rw [digitsToNat_replicate_zero, hval]

theorem parseUnsignedFloat_decimal (A : Nat) :
    parseUnsignedFloat (strOfNat (A / 1000000) ++ '.' ::
      (List.replicate (6 - (strOfNat (A % 1000000)).length) '0' ++ strOfNat (A % 1000000))) =
      .ok (mkRat (Int.ofNat A) 1000000) := by
  obtain ⟨hip_all, hip_ne, hip_val⟩ := strOfNat_spec (A / 1000000)
  obtain ⟨hfp_all, hfp_len, hfp_val⟩ := fp_pad_facts (A % 1000000) (by omega)
  obtain ⟨htake, hdrop⟩ := takeWhile_append_stop Char.isDigit '.' (by decide) _
    (List.replicate (6 - (strOfNat (A % 1000000)).length) '0' ++ strOfNat (A % 1000000)) hip_all
  unfold parseUnsignedFloat
  dsimp only
  rw [htake, hdrop]
  rw [if_neg (by simp)]
  rw [if_pos ⟨by simp, by simpa using hfp_all, Or.inl hip_ne⟩]
  simp only [List.drop_succ_cons, List.drop_zero, hfp_len, hip_val, hfp_val]
  have hA : A / 1000000 * 10 ^ 6 + A % 1000000 = A := by
    norm_num
    omega
  rw [hA]
  norm_num

theorem format6_eq (q : ℚ) (k : Int) (hk : q.num * 1000000 = (q.den : Int) * k) :
    format6 q = (if k < 0 then ['-'] else []) ++
      (strOfNat (k.natAbs / 1000000) ++ '.' ::
        (List.replicate (6 - (strOfNat (k.natAbs % 1000000)).length) '0'
          ++ strOfNat (k.natAbs % 1000000))) := by
  unfold format6
  dsimp only
  rw [hk, roundHalfEven_exact q.den k q.pos]
  simp [List.append_assoc]

theorem take2_ne_dash (t : List Char) :
    ('-' :: t).take 2 ≠ ['0', 'x'] ∧ ('-' :: t).take 2 ≠ ['0', 'b'] := by
  constructor <;> intro h <;>
    (rw [List.take_succ_cons] at h; injection h with h1 _; exact absurd h1 (by decide))

theorem take2_decimal (ip fp : List Char) (hip : ip.all Char.isDigit = true) (hipne : ip ≠ []) :
    (ip ++ '.' :: fp).take 2 ≠ ['0', 'x'] ∧ (ip ++ '.' :: fp).take 2 ≠ ['0', 'b'] := by
  apply take2_ne_digit_or_dot
  intro c0 c1 rest heq
  rcases ip with _ | ⟨a, ip1⟩
  · exact absurd rfl hipne
  · rcases ip1 with _ | ⟨b, ip2⟩
    · simp only [List.cons_append, List.nil_append, List.cons.injEq] at heq
      exact Or.inr heq.2.1.symm
    · simp only [List.cons_append, List.cons.injEq] at heq
      simp only [List.all_cons, Bool.and_eq_true] at hip
      exact Or.inl (heq.2.1 ▸ hip.2.1)

theorem parse_value_float_route (s : List Char) (hx : s.take 2 ≠ ['0', 'x'])
    (hb : s.take 2 ≠ ['0', 'b']) (hdot : '.' ∈ s) :
    parse_value s = parseFloatChars s >>= fun q => Except.ok (.vfloat q) := by
  rw [parse_value, if_neg hx, if_neg hb, if_pos (Or.inr (Or.inr hdot))]

theorem text_rt_float (q : ℚ) (hden : (mkRat (q.num * 1000000) q.den).den = 1) :
    value_to_string (.vfloat q) .f = .ok (format6 q) ∧
      parse_value (format6 q) = .ok (.vfloat q) ∧ ',' ∉ format6 q ∧ format6 q ≠ [] := by
  obtain ⟨k, hk⟩ := mkRat_den_one_dvd (q.num * 1000000) q.den q.den_nz hden
  have hfmt := format6_eq q k hk
  have hq := q_eq_mkRat_millionth q k hk
  obtain ⟨hip_all, hip_ne, hip_val⟩ := strOfNat_spec (k.natAbs / 1000000)
  obtain ⟨hfp_all, hfp_len, hfp_val⟩ := fp_pad_facts (k.natAbs % 1000000) (by omega)
  have hPU := parseUnsignedFloat_decimal k.natAbs
  have hcomma : ',' ∉ format6 q := by
    rw [hfmt]
    intro hm
    rcases List.mem_append.mp hm with h | h
    · by_cases hneg : k < 0
      · rw [if_pos hneg] at h
        simp only [List.mem_singleton] at h
        exact absurd h (by decide)
      · rw [if_neg hneg] at h
        simp at h
    · rcases List.mem_append.mp h with h1 | h1
      · exact absurd (List.all_eq_true.mp hip_all _ h1) (by decide)
      · rcases List.mem_cons.mp h1 with h2 | h2
        · exact absurd h2 (by decide)
        · exact absurd (List.all_eq_true.mp hfp_all _ h2) (by decide)
  have hne_fmt : format6 q ≠ [] := by
    rw [hfmt]
    intro hcon
    rw [List.append_eq_nil] at hcon
    rw [List.append_eq_nil] at hcon
    exact absurd hcon.2.1 hip_ne
  refine ⟨by simp [value_to_string, pyFloat], ?_, hcomma, hne_fmt⟩
  by_cases hneg : k < 0
  · have hs : format6 q = '-' :: (strOfNat (k.natAbs / 1000000) ++ '.' ::
        (List.replicate (6 - (strOfNat (k.natAbs % 1000000)).length) '0'
          ++ strOfNat (k.natAbs % 1000000))) := by
      rw [hfmt, if_pos hneg]; simp
    rw [hs]
    obtain ⟨hx, hb⟩ := take2_ne_dash _
    rw [parse_value_float_route _ hx hb (by simp)]
    simp only [parseFloatChars]
    rw [if_pos (by rw [List.take_succ_cons, List.take_zero])]
    simp only [List.drop_succ_cons, List.drop_zero]
    rw [hPU, okBind]
    have hofnat : Int.ofNat k.natAbs = -k := by rw [Int.ofNat_eq_natCast]; omega
    have hval : mkRat (-k) 1000000 = -q := by rw [hq, Rat.neg_mkRat]
    rw [hofnat, hval, Rat.neg_num, Rat.neg_den, neg_neg, Rat.mkRat_self]
    rfl
  · have hs : format6 q = strOfNat (k.natAbs / 1000000) ++ '.' ::
        (List.replicate (6 - (strOfNat (k.natAbs % 1000000)).length) '0'
          ++ strOfNat (k.natAbs % 1000000)) := by
      rw [hfmt, if_neg hneg]; simp
    rw [hs]
    obtain ⟨hx, hb⟩ := take2_decimal _ _ hip_all hip_ne
    rw [parse_value_float_route _ hx hb (by simp)]
    have hdash : ¬ ((strOfNat (k.natAbs / 1000000) ++ '.' ::
        (List.replicate (6 - (strOfNat (k.natAbs % 1000000)).length) '0'
          ++ strOfNat (k.natAbs % 1000000))).take 1 = ['-']) := by
      rcases hcase : strOfNat (k.natAbs / 1000000) with _ | ⟨a, rest⟩
      · exact absurd hcase hip_ne
      · have ha : a.isDigit = true := by
          have := List.all_eq_true.mp hip_all a (by rw [hcase]; exact List.mem_cons_self a rest)
          exact this
        rw [List.cons_append, List.take_succ_cons, List.take_zero]
        simp only [List.cons.injEq, and_true]
        exact (digit_ne a ha).1
    simp only [parseFloatChars]
    rw [if_neg hdash, hPU, okBind]
    have hofnat : Int.ofNat k.natAbs = k := by rw [Int.ofNat_eq_natCast]; omega
    rw [hofnat, ← hq]

theorem text_rt_one (t : Tag) (v : PyVal) (h : ValidText t v = true) :
    ∃ s, value_to_string v t = .ok s ∧ parse_value s = .ok v ∧ ',' ∉ s ∧ s ≠ [] := by
  cases t <;> cases v <;> simp [ValidText] at h
  case b.vint n =>
    obtain ⟨hrt, hcm, hne⟩ := text_rt_nat n h.1
    refine ⟨strOfInt n, ?_, hrt, hcm, hne⟩
    simp [value_to_string, pyInt, clampByte_id n h.1 h.2]
  case i.vint n =>
    obtain ⟨hrt, hcm, hne⟩ := text_rt_nat n h.1
    refine ⟨strOfInt n, ?_, hrt, hcm, hne⟩
    simp [value_to_string, pyInt, clampU32_id n h.1 h.2]
  case f.vfloat q =>
    obtain ⟨h1, h2, h3, h4⟩ := text_rt_float q h.2
    exact ⟨format6 q, h1, h2, h3, h4⟩

theorem textFieldsLoop_ok :
    ∀ {ts : List Tag} {vs : List PyVal}, ValidList ValidText ts vs = true →
      ∃ parts, textFieldsLoop vs ts = .ok parts ∧
        (∀ p ∈ parts, ',' ∉ p) ∧ parts.length = ts.length ∧
        parts.mapM parse_value = .ok vs := by
  intro ts
  induction ts with
  | nil =>
    intro vs h
    cases vs with
    | cons v vs => simp [ValidList] at h
    | nil => exact ⟨[], rfl, by simp, rfl, rfl⟩
  | cons t ts ih =>
    intro vs h
    cases vs with
    | nil => simp [ValidList] at h
    | cons v vs =>
      simp only [ValidList, Bool.and_eq_true] at h
      obtain ⟨s, hs, hps, hcm, _⟩ := text_rt_one t v h.1
      obtain ⟨parts, hparts, hpcm, hplen, hpmap⟩ := ih h.2
      refine ⟨s :: parts, ?_, ?_, ?_, ?_⟩
      · simp [textFieldsLoop, hs, hparts]
      · intro p hp
        rcases List.mem_cons.mp hp with h1 | h1
        · exact h1 ▸ hcm
        · exact hpcm p h1
      · simp [hplen]
      · rw [List.mapM_cons, hps, hpmap]; rfl

theorem decodeTextValues_joined (parts : List (List Char)) (vs : List PyVal)
    (hne : parts ≠ []) (hcm : ∀ p ∈ parts, ',' ∉ p)
    (hmap : parts.mapM parse_value = .ok vs) :
    decodeTextValues (joinChar ',' parts) = .ok vs := by
  unfold decodeTextValues
  rw [splitOnChar_joinChar ',' parts hne hcm, hmap]

theorem validText_bstar_false (v : PyVal) : ValidText .bstar v = false := by
  cases v <;> rfl

theorem bstar_fields_ok :
    ∀ vs : List PyVal, vs.all (fun v => ValidText .b v) = true →
      ∃ parts, vs.mapM (fun v => value_to_string v .b) = .ok parts ∧
        (∀ p ∈ parts, ',' ∉ p) ∧ parts.length = vs.length ∧
        parts.mapM parse_value = .ok vs := by
  intro vs
  induction vs with
  | nil => intro _; exact ⟨[], rfl, by simp, rfl, rfl⟩
  | cons v vs ih =>
    intro h
    simp only [List.all_cons, Bool.and_eq_true] at h
    obtain ⟨s, hs, hps, hcm, _⟩ := text_rt_one .b v h.1
    obtain ⟨parts, hparts, hpcm, hplen, hpmap⟩ := ih h.2
    refine ⟨s :: parts, ?_, ?_, ?_, ?_⟩
    · rw [List.mapM_cons, hs, hparts]; rfl
    · intro p hp
      rcases List.mem_cons.mp hp with h1 | h1
      · exact h1 ▸ hcm
      · exact hpcm p h1
    · simp [hplen]
    · rw [List.mapM_cons, hps, hpmap]; rfl

/-! ## Claim theorems -/

/-- C1, counterexample: the telemetry-selection special case does not
round-trip in binary.  Encoding the values `[1, 2, 3]` for the
telemetry-selection register writes the raw bytes `[1, 2, 3]`, but binary
frame decoding of that payload treats it as a count byte followed by
`(motor, register)` byte pairs — reading both pair members at the same
offset — and yields the single pair `[[2, 2]]`, not the original vector. -/
theorem c1_telemetry_no_roundtrip :
    encodeTelemetryValues [.vint 1, .vint 2, .vint 3] = .ok [1, 2, 3] ∧
    parseFrameBin ([82, 26] ++ [1, 2, 3]) =
      .ok (some { frame_type := .REGISTER, register := some REG_TELEMETRY_REG,
                  values := some (.vals [.vlist [.vint 2, .vint 2]]) }) ∧
    [PyVal.vlist [.vint 2, .vint 2]] ≠ [PyVal.vint 1, .vint 2, .vint 3] :=
  ⟨rfl, rfl, fun h => by simpa using congrArg List.length h⟩

/-- C1, amended: for fixed-width type signatures (byte, uint32, float32)
with type-valid value vectors, binary-decoding the binary encoding returns
the original vector, and text-decoding the text encoding returns it (the
text codec needs a non-empty signature, since `values_to_string` subscripts
`types[0]`); the telemetry-selection variable-byte-list special case
round-trips in text. -/
theorem c1_value_codec_roundtrip :
    (∀ (ts : List Tag) (vs : List PyVal), ValidList ValidBin ts vs = true →
       ∃ buf, encodeBinaryLoop vs ts = .ok buf ∧
         parseValuesLoop buf 0 ts = .ok (vs, buf.length)) ∧
    (∀ (ts : List Tag) (vs : List PyVal), ts ≠ [] → ValidList ValidText ts vs = true →
       ∃ s, values_to_string vs ts = .ok s ∧ decodeTextValues s = .ok vs) ∧
    (∀ vs : List PyVal, vs ≠ [] → vs.all (fun v => ValidText .b v) = true →
       ∃ s, values_to_string vs [.bstar] = .ok s ∧ decodeTextValues s = .ok vs) := by
  refine ⟨?_, ?_, ?_⟩
  · intro ts vs h
    obtain ⟨buf, hbuf⟩ := encodeBinaryLoop_ok h
    refine ⟨buf, hbuf, ?_⟩
    have := parseValuesLoop_encoded h hbuf []
    simpa using this
  · intro ts vs hne h
    rcases ts with _ | ⟨t0, ts'⟩
    · exact absurd rfl hne
    · rcases vs with _ | ⟨v0, vs'⟩
      · cases t0 <;> simp [ValidList] at h
      · have hbs : t0 ≠ .bstar := by
          intro hcon
          subst hcon
          simp only [ValidList, validText_bstar_false v0, Bool.false_and] at h
          exact absurd h (by simp)
        obtain ⟨parts, hparts, hpcm, hplen, hpmap⟩ := textFieldsLoop_ok h
        have hpne : parts ≠ [] := by
          intro hcon
          rw [hcon] at hplen
          simp at hplen
        refine ⟨joinChar ',' parts, ?_, ?_⟩
        · simp [values_to_string, hbs, hparts]
        · exact decodeTextValues_joined parts _ hpne hpcm hpmap
  · intro vs hne h
    obtain ⟨parts, hparts, hpcm, hplen, hpmap⟩ := bstar_fields_ok vs h
    have hpne : parts ≠ [] := by
      intro hcon
      rw [hcon] at hplen
      simp at hplen
      exact hne (List.length_eq_zero.mp hplen.symm)
    refine ⟨joinChar ',' parts, ?_, ?_⟩
    · have hvs : values_to_string vs [.bstar] =
          vs.mapM (fun v => value_to_string v .b) >>= fun parts =>
            Except.ok (joinChar ',' parts) := rfl
      rw [hvs, hparts, okBind]
    · exact decodeTextValues_joined parts _ hpne hpcm hpmap

/-- C1, witness: the amended round-trip evaluated at concrete vectors —
binary `[12.5, 300, 7] : [f, i, b]`, text `[12.5, 77] : [f, i]`, and the
telemetry-selection text case `[3, 200] : [b*]`. -/
theorem c1_value_codec_roundtrip_witness :
    (∃ buf, encodeBinaryLoop [.vfloat (mkRat 25 2), .vint 300, .vint 7] [.f, .i, .b] = .ok buf ∧
       parseValuesLoop buf 0 [.f, .i, .b] =
         .ok ([.vfloat (mkRat 25 2), .vint 300, .vint 7], buf.length)) ∧
    (∃ s, values_to_string [.vfloat (mkRat 25 2), .vint 77] [.f, .i] = .ok s ∧
       decodeTextValues s = .ok [.vfloat (mkRat 25 2), .vint 77]) ∧
    (∃ s, values_to_string [.vint 3, .vint 200] [.bstar] = .ok s ∧
       decodeTextValues s = .ok [.vint 3, .vint 200]) :=
  ⟨c1_value_codec_roundtrip.1 _ _ (by decide),
   c1_value_codec_roundtrip.2.1 _ _ (by decide) (by decide),
   c1_value_codec_roundtrip.2.2 _ (by simp) (by decide)⟩

/-- C2 (confirmed): feeding 300 garbage zero bytes then the valid frame
`[0xA5, 0x02, ord('S'), 0x01, 0xA5]` to a fresh Binary Framer produces no
frame on any of the first 304 bytes and exactly one SYNC frame with flag
true when the final 0xA5 is processed, leaving `in_sync` true. -/
theorem c2_binary_resync :
    runBin freshBin (List.replicate 300 0 ++ [165, 2, 83, 1, 165]) =
      .ok (⟨0, true, [], true⟩,
        List.replicate 304 none ++
          [some { frame_type := .SYNC, values := some (.vals [.vbool true]) }]) := rfl

/-- C3 (confirmed): a marker byte processed while `expected = 0` with the
marker flag set becomes the expected payload length (its own numeric value
165) and clears the marker flag, leaving buffer and `in_sync` untouched and
producing no frame — it is not treated as a fresh marker. -/
theorem c3_double_marker (buf : List Nat) (sync : Bool) :
    processByte ⟨0, true, buf, sync⟩ 165 = .ok (⟨165, false, buf, sync⟩, none) := rfl

/-- C3, witness: the double-marker step evaluated at a concrete state. -/
theorem c3_double_marker_witness :
    processByte ⟨0, true, [7, 8], false⟩ 165 = .ok (⟨165, false, [7, 8], false⟩, none) :=
  c3_double_marker [7, 8] false

/-- C5 (code bug): decoding a binary REGISTER frame that addresses the
absent register id 2 raises `AttributeError` (`None.read_types`) instead of
producing a frame with a null register placeholder, while the HEADER
decoder does produce the placeholder for the same unknown id. -/
theorem c5_unknown_register_fatal :
    parseFrameBin [82, 2] = .error .attributeError ∧
    parseFrameBin [72, 1, 0, 2] =
      .ok (some { frame_type := .HEADER, telemetryid := some 1,
                  registers := [none], motors := [0] }) :=
  ⟨rfl, rfl⟩

/-- C7 (confirmed): a fresh Text Framer discards its first newline-terminated
line, transmits `S1\n`, and sets `in_sync`; the subsequent line `R1=12.5\n`
parses to a REGISTER frame addressing the register with id 1 carrying the
single value 12.5. -/
theorem c7_text_handshake :
    runAscii freshAscii ("junk\nR1=12.5\n".data) =
      .ok (⟨[], true⟩, ["S1\n".data],
        [some { frame_type := .REGISTER, register := some REG_TARGET,
                values := some (.vals [.vfloat (mkRat 25 2)]) }]) := rfl

/-- C8 (confirmed): resolving a binary TELEMETRY frame whose raw payload is
the 4-byte little-endian IEEE-754 encoding of 12.5 against a HEADER with
register list `[(motor 0, VELOCITY)]` consumes VELOCITY's read signature
from the payload and yields the flat value list `[12.5]`. -/
theorem c8_header_then_telemetry :
    parse_telemetry
      { frame_type := .TELEMETRY, telemetryid := some 1, values := some (.raw [0, 0, 72, 65]) }
      (some { frame_type := .HEADER, telemetryid := some 1,
              registers := [some REG_VELOCITY], motors := [0] }) =
      .ok { frame_type := .TELEMETRY, telemetryid := some 1,
            values := some (.vals [.vfloat (mkRat 25 2)]) } := rfl

theorem processByte_nonmarker_fill (b : Nat) (hb : b ≠ 165) (buf : List Nat) (s : Bool)
    (hlen : buf.length < 255) :
    processByte ⟨0, false, buf, s⟩ b = .ok (⟨0, false, buf ++ [b], s⟩, none) := by
  unfold processByte MARKER
  rw [if_neg hb, if_neg (by simp; omega)]
  simp

theorem processByte_nonmarker_overrun (b : Nat) (hb : b ≠ 165) (buf : List Nat) (s : Bool)
    (hlen : 255 ≤ buf.length) :
    processByte ⟨0, false, buf, s⟩ b = .ok (⟨0, false, [], false⟩, none) := by
  unfold processByte MARKER
  rw [if_neg hb, if_pos (by simp; omega)]

theorem runBin_fill : ∀ (bs : List Nat) (buf : List Nat) (s : Bool),
    (∀ b ∈ bs, b ≠ 165) → buf.length + bs.length ≤ 255 →
    runBin ⟨0, false, buf, s⟩ bs =
      .ok (⟨0, false, buf ++ bs, s⟩, List.replicate bs.length none) := by
  intro bs
  induction bs with
  | nil => intro buf s _ _; simp [runBin]
  | cons b bs ih =>
    intro buf s hnm hlen
    have hb : b ≠ 165 := hnm b (List.mem_cons_self b bs)
    have hstep := processByte_nonmarker_fill b hb buf s (by simp at hlen; omega)
    have hrest := ih (buf ++ [b]) s (fun x hx => hnm x (List.mem_cons_of_mem b hx))
      (by simp [List.length_append] at hlen ⊢; omega)
    simp only [runBin, hstep, okBind, hrest]
    simp [List.replicate_succ]

theorem runBin_append (st : BinState) (xs : List Nat) :
    ∀ (ys : List Nat) (st1 st2 : BinState) (os1 os2 : List (Option Frame)),
      runBin st xs = .ok (st1, os1) → runBin st1 ys = .ok (st2, os2) →
      runBin st (xs ++ ys) = .ok (st2, os1 ++ os2) := by
  induction xs generalizing st with
  | nil =>
    intro ys st1 st2 os1 os2 h1 h2
    simp only [runBin] at h1
    injection h1 with h1
    injection h1 with ha hb
    subst ha; subst hb
    simpa using h2
  | cons x xs ih =>
    intro ys st1 st2 os1 os2 h1 h2
    rw [List.cons_append]
    rw [runBin] at h1
    rw [runBin]
    cases hpb : processByte st x with
    | error e => rw [hpb] at h1; simp at h1
    | ok r =>
      obtain ⟨st', f⟩ := r
      rw [hpb] at h1
      simp only [okBind] at h1
      cases hrb : runBin st' xs with
      | error e => rw [hrb] at h1; simp at h1
      | ok r2 =>
        obtain ⟨st'', fs⟩ := r2
        rw [hrb] at h1
        simp only [okBind, Except.ok.injEq, Prod.mk.injEq] at h1
        obtain ⟨hst, hos⟩ := h1
        subst hst
        subst hos
        simp only [okBind]
        rw [ih st' ys st'' st2 fs os2 hrb h2]
        simp only [okBind, List.cons_append]

/-- C6, counterexample: after exactly 255 non-marker bytes the fresh Binary
Framer has performed no reset at all — the accumulation buffer holds all
255 bytes (it is not empty) and `in_sync` is false only because it started
false; no frame was produced. -/
theorem c6_255_no_reset :
    runBin freshBin (List.replicate 255 7) =
      .ok (⟨0, false, List.replicate 255 7, false⟩, List.replicate 255 none) ∧
    (List.replicate 255 7 : List Nat) ≠ [] :=
  ⟨rfl, by simp⟩

/-- C6, amended: feeding 256 (not 255) arbitrary non-marker bytes to a
fresh Binary Framer forces the overrun reset: the first 255 bytes
accumulate, and the 256th triggers the reset, leaving `in_sync` false and
the buffer empty, with no frame produced and no exception. -/
theorem c6_overrun_recovery (bytes : List Nat) (h1 : bytes.length = 256)
    (h2 : ∀ b ∈ bytes, b ≠ 165) :
    runBin freshBin bytes = .ok (⟨0, false, [], false⟩, List.replicate 256 none) := by
  have hsplit := List.take_append_drop 255 bytes
  have hlt : (bytes.take 255).length = 255 := by simp [List.length_take]; omega
  have hd : (bytes.drop 255).length = 1 := by simp [List.length_drop]; omega
  obtain ⟨b, hb⟩ := List.length_eq_one.mp hd
  have hfill := runBin_fill (bytes.take 255) [] false
    (fun x hx => h2 x (List.take_subset 255 bytes hx)) (by simp [hlt])
  rw [List.nil_append] at hfill
  have hbm : b ≠ 165 := h2 b (by
    have : b ∈ bytes.drop 255 := by rw [hb]; exact List.mem_singleton.mpr rfl
    exact List.drop_subset 255 bytes this)
  have hpb := processByte_nonmarker_overrun b hbm (bytes.take 255) false (by rw [hlt])
  have hover : runBin ⟨0, false, bytes.take 255, false⟩ [b] =
      .ok (⟨0, false, [], false⟩, [none]) := by
    simp only [runBin, hpb, okBind]
  have happ := runBin_append freshBin (bytes.take 255) [b] _ _ _ _ hfill hover
  have hrep : List.replicate 256 (none : Option Frame) = List.replicate 255 none ++ [none] :=
    List.replicate_succ' ..
  rw [← hsplit, hb, happ, hlt, hrep]

/-- C6, witness: the amended overrun recovery evaluated on 256 bytes of
value 7. -/
theorem c6_overrun_recovery_witness :
    runBin freshBin (List.replicate 256 7) =
      .ok (⟨0, false, [], false⟩, List.replicate 256 none) :=
  c6_overrun_recovery (List.replicate 256 7) (by simp)
    (fun b hb => by rw [List.eq_of_mem_replicate hb]; decide)

/-- C4 (confirmed): the text integer clamp laws of `value_to_string` — an
unsigned-32-bit field maps any `v ≥ 2^32` to `"4294967295"`, folds negative
`v` to `str(v + 2^32)`, and yields `"2147483648"` when the fold is still
negative; a byte field folds negative `v` to `str(256 + v)`, yields
`"128"` when still negative, and clamps `v > 255` to `"255"`; in
particular `4294967296 ↦ "4294967295"`, `-1 ↦ "4294967295"` (uint32) and
`-1 ↦ "255"` (byte). -/
theorem c4_integer_clamp :
    (∀ v : Int, 4294967296 ≤ v →
      value_to_string (.vint v) .i = .ok "4294967295".data) ∧
    (∀ v : Int, v < 0 → 0 ≤ v + 4294967296 →
      value_to_string (.vint v) .i = .ok (strOfInt (v + 4294967296))) ∧
    (∀ v : Int, v + 4294967296 < 0 →
      value_to_string (.vint v) .i = .ok "2147483648".data) ∧
    (∀ v : Int, v < 0 → 0 ≤ 256 + v →
      value_to_string (.vint v) .b = .ok (strOfInt (256 + v))) ∧
    (∀ v : Int, 256 + v < 0 →
      value_to_string (.vint v) .b = .ok "128".data) ∧
    (∀ v : Int, 255 < v →
      value_to_string (.vint v) .b = .ok "255".data) ∧
    value_to_string (.vint 4294967296) .i = .ok "4294967295".data ∧
    value_to_string (.vint (-1)) .i = .ok "4294967295".data ∧
    value_to_string (.vint (-1)) .b = .ok "255".data := by
  have hi : ∀ v : Int, value_to_string (.vint v) .i = .ok (strOfInt (clampU32 v)) := by
    intro v; rfl
  have hbyte : ∀ v : Int, value_to_string (.vint v) .b = .ok (strOfInt (clampByte v)) := by
    intro v; rfl
  refine ⟨?_, ?_, ?_, ?_, ?_, ?_, rfl, rfl, rfl⟩
  · intro v hv
    rw [hi v, show clampU32 v = 4294967295 by unfold clampU32; dsimp only; split_ifs <;> omega]
    rfl
  · intro v hv1 hv2
    rw [hi v, show clampU32 v = v + 4294967296 by
      unfold clampU32; dsimp only; split_ifs <;> omega]
  · intro v hv
    rw [hi v, show clampU32 v = 2147483648 by unfold clampU32; dsimp only; split_ifs <;> omega]
    rfl
  · intro v hv1 hv2
    rw [hbyte v, show clampByte v = 256 + v by
      unfold clampByte; dsimp only; split_ifs <;> omega]
  · intro v hv
    rw [hbyte v, show clampByte v = 128 by unfold clampByte; dsimp only; split_ifs <;> omega]
    rfl
  · intro v hv
    rw [hbyte v, show clampByte v = 255 by unfold clampByte; dsimp only; split_ifs <;> omega]
    rfl

/-- C4, witness: the clamp laws applied at the concrete inputs named in the
claim. -/
theorem c4_integer_clamp_witness :
    value_to_string (.vint 4294967296) .i = .ok "4294967295".data ∧
    value_to_string (.vint (-1)) .i = .ok (strOfInt ((-1) + 4294967296)) ∧
    value_to_string (.vint (-1)) .b = .ok (strOfInt (256 + (-1))) ∧
    value_to_string (.vint (-5000000000)) .i = .ok "2147483648".data ∧
    value_to_string (.vint (-300)) .b = .ok "128".data ∧
    value_to_string (.vint 300) .b = .ok "255".data :=
  ⟨c4_integer_clamp.1 4294967296 (by decide),
   c4_integer_clamp.2.1 (-1) (by decide) (by decide),
   c4_integer_clamp.2.2.2.1 (-1) (by decide) (by decide),
   c4_integer_clamp.2.2.1 (-5000000000) (by decide),
   c4_integer_clamp.2.2.2.2.1 (-300) (by decide),
   c4_integer_clamp.2.2.2.2.2.1 300 (by decide)⟩

/-- C10 (confirmed): text transmission of any HEADER frame with a non-empty
register list raises `TypeError` while the line is still being built — the
expression `str(v[0]) + ":" + str[int(v[1])]` subscripts the built-in `str`
type — so nothing is ever written to the transport. -/
theorem c10_header_send_raises (f : Frame) (hty : f.frame_type = .HEADER)
    (hne : f.registers ≠ []) (s : Bool) :
    sendFrameAscii s f = .error .typeError := by
  unfold sendFrameAscii
  rw [hty]
  simp only [if_neg hne]
  rfl

/-- C10, witness: a concrete HEADER frame with one register raises and
nothing is written. -/
theorem c10_header_send_raises_witness :
    sendFrameAscii true
      { frame_type := .HEADER, telemetryid := some 1,
        registers := [some REG_VELOCITY], motors := [0] } = .error .typeError :=
  c10_header_send_raises _ rfl (by simp) true

/-- C9, counterexample: name lookup is not case-insensitive for the
`REG_`-prefixed form.  `REG_STATUS` is a catalog register, but looking its
name up in lowercase — `reg_status` — raises `AttributeError` (the
lowercase prefix fails the exact `REG_` check, so a second `REG_` is
prepended) instead of resolving to the register. -/
theorem c9_lowercase_prefixed_fails :
    REG_STATUS ∈ registersList ∧
    lowerChars REG_STATUS.name = "reg_status".data ∧
    parse_registerStr "reg_status".data = .error .attributeError := by decide

set_option maxHeartbeats 2000000 in
/-- C9, amended: for every catalog register, name lookup resolves the exact
uppercase name, the name with uppercase `REG_` prefix and lowercase
remainder, the unprefixed name in lowercase or uppercase, and the decimal
and lowercase `0x`-hex renderings of its id (via the id lookup) — all to
the same register; only the fully-lowercased prefixed form is not
supported. -/
theorem c9_name_lookup :
    ∀ r ∈ registersList,
      parse_registerStr r.name = .ok (some r) ∧
      parse_registerStr ("REG_".data ++ lowerChars (r.name.drop 4)) = .ok (some r) ∧
      parse_registerStr (lowerChars (r.name.drop 4)) = .ok (some r) ∧
      parse_registerStr (r.name.drop 4) = .ok (some r) ∧
      parse_registerStr (strOfNat r.id) = .ok (some r) ∧
      parse_registerStr ('0' :: 'x' :: hexStrOfNat r.id) = .ok (some r) := by decide

/-- C9, witness: the amended lookup forms evaluated for `REG_VELOCITY`
(id 0x11). -/
theorem c9_name_lookup_witness :
    parse_registerStr "REG_VELOCITY".data = .ok (some REG_VELOCITY) ∧
    parse_registerStr ("REG_".data ++ lowerChars ("REG_VELOCITY".data.drop 4)) =
      .ok (some REG_VELOCITY) ∧
    parse_registerStr (lowerChars ("REG_VELOCITY".data.drop 4)) = .ok (some REG_VELOCITY) ∧
    parse_registerStr ("REG_VELOCITY".data.drop 4) = .ok (some REG_VELOCITY) ∧
    parse_registerStr (strOfNat REG_VELOCITY.id) = .ok (some REG_VELOCITY) ∧
    parse_registerStr ('0' :: 'x' :: hexStrOfNat REG_VELOCITY.id) = .ok (some REG_VELOCITY) :=
  c9_name_lookup REG_VELOCITY (by decide)
